import Mathlib

/-!
Shallow embedding of `trunk/scripts/voiceid.py` (the voiceid speaker
identification tool) and proofs about it.

Modelling conventions:
* Python `float` match scores are modelled as `ℚ` (the numeric literals in
  the program and in all inputs of interest are decimal, hence exact in `ℚ`).
* The Python dictionary `Cluster.speakers` is modelled as an association
  list `List (String × ℚ)` in insertion order (single-occurrence keys, as a
  dict guarantees); `dict.has_key`/lookup is first-match lookup.
* Code that can raise a Python exception is modelled in `Except String`,
  the error string recording the exception that the interpreter would raise.
* Files are modelled as their text contents (`String`); the file-system
  directories touched by enrollment are modelled as lists of file names.
-/

namespace Voiceid

/-- Association-list model of the Python dict `self.speakers`
(speaker name ↦ best score seen so far). -/
abbrev SpeakerMap := List (String × ℚ)

/-- The `Cluster` entity of voiceid.py (fields from `Cluster.__init__`;
`wave`/`mfcc` path fields are omitted as no claim mentions them). -/
structure Cluster where
  name : String := ""
  gender : String := "U"
  frames : Int := 0
  e : Option String := none
  speakers : SpeakerMap := []
  segments : List (List String) := []
  seg_header : Option String := none
  deriving Repr, DecidableEq

/-- `Cluster.add_speaker`: record a score for `name`, keeping the maximum
of the existing entry and the new value (insert if absent).

    if self.speakers.has_key( name ) == False:
        self.speakers[ name ] = float(value)
    else:
        if self.speakers[ name ] < float(value):
            self.speakers[ name ] = float(value)
-/
def addSpeakerMap : SpeakerMap → String → ℚ → SpeakerMap
  | [], n, v => [(n, v)]
  | (k, w) :: rest, n, v =>
    if k = n then (k, if w < v then v else w) :: rest
    else (k, w) :: addSpeakerMap rest n v

def Cluster.add_speaker (c : Cluster) (name : String) (value : ℚ) : Cluster :=
  { c with speakers := addSpeakerMap c.speakers name value }

/-- Python's built-in `abs` on a (here: rational-valued) number. -/
def pyAbs (x : ℚ) : ℚ := if x < 0 then -x else x

/-- Python's built-in `max` over an iterable: `None` on an empty iterable
(modelling the `ValueError`), otherwise the greatest element, keeping the
current candidate on ties. -/
def pyMax : List ℚ → Option ℚ
  | [] => none
  | x :: xs => some (xs.foldl (fun acc b => if acc < b then b else acc) x)

/-- The list `self.speakers.values()`. -/
def valuesOf (m : SpeakerMap) : List ℚ := m.map Prod.snd

/-- `values.sort(reverse=True)`: the score values in descending order
(Python's stable sort; `insertionSort` with `≥` is a sorted permutation,
which is all that matters for a list of numbers). -/
def sortedValuesDesc (m : SpeakerMap) : List ℚ :=
  (valuesOf m).insertionSort (fun a b => b ≤ a)

/-- `Cluster.get_distance`:

    values = self.speakers.values()
    values.sort(reverse=True)
    return abs(values[1]) - abs(values[0])

`values[1]` raises `IndexError` when fewer than two scores exist. -/
def Cluster.get_distance (c : Cluster) : Except String ℚ :=
  match sortedValuesDesc c.speakers with
  | v0 :: v1 :: _ => .ok (pyAbs v1 - pyAbs v0)
  | _ => .error "IndexError: list index out of range"

/-- `Cluster.get_best_speaker`:

    max_val = -33.0
    self.value = max(self.speakers.values())     -- ValueError on empty dict
    self.speaker = 'unknown'
    if self.value > max_val:
        for s in self.speakers:
            if self.speakers[s] == self.value:
                self.speaker = s
                break
    if self.get_distance() < .1:                 -- may raise IndexError
        self.speaker = 'unknown'
    return self.speaker
-/
def Cluster.get_best_speaker (c : Cluster) : Except String String :=
  match pyMax (valuesOf c.speakers) with
  | none => .error "ValueError: max() arg is an empty sequence"
  | some value =>
    let speaker : String :=
      if value > -33 then
        match c.speakers.find? (fun p => decide (p.2 = value)) with
        | some p => p.1
        | none => "unknown"
      else "unknown"
    match c.get_distance with
    | .error e => .error e
    | .ok d => .ok (if d < mkRat 1 10 then "unknown" else speaker)

/-- Decidable equality for `Except`, for concrete evaluation of results. -/
def exceptDecEq {α β : Type} [DecidableEq α] [DecidableEq β] : DecidableEq (Except α β)
  | .error a, .error b =>
      if h : a = b then isTrue (by rw [h]) else isFalse (fun hc => by cases hc; exact h rfl)
  | .error _, .ok _ => isFalse (fun hc => by cases hc)
  | .ok _, .error _ => isFalse (fun hc => by cases hc)
  | .ok a, .ok b =>
      if h : a = b then isTrue (by rw [h]) else isFalse (fun hc => by cases hc; exact h rfl)

instance {α β : Type} [DecidableEq α] [DecidableEq β] : DecidableEq (Except α β) :=
  exceptDecEq

/-! ### Helper lemmas about the embedded primitives -/

theorem pyAbs_eq_abs (x : ℚ) : pyAbs x = |x| := by
  unfold pyAbs
  split
  · exact (abs_of_neg (by assumption)).symm
  · exact (abs_of_nonneg (not_lt.1 (by assumption))).symm

theorem pyMax_foldl_spec (xs : List ℚ) :
    ∀ acc : ℚ, (xs.foldl (fun acc b => if acc < b then b else acc) acc = acc ∨
        xs.foldl (fun acc b => if acc < b then b else acc) acc ∈ xs) ∧
      acc ≤ xs.foldl (fun acc b => if acc < b then b else acc) acc ∧
      ∀ x ∈ xs, x ≤ xs.foldl (fun acc b => if acc < b then b else acc) acc := by
  induction xs with
  | nil => intro acc; exact ⟨Or.inl rfl, le_refl _, by simp⟩
  | cons y ys ih =>
    intro acc
    simp only [List.foldl_cons]
    rcases ih (if acc < y then y else acc) with ⟨hmem, hle, hub⟩
    constructor
    · rcases hmem with h | h
      · rw [h]
        split
        · exact Or.inr (List.mem_cons_self _ _)
        · exact Or.inl rfl
      · exact Or.inr (List.mem_cons_of_mem _ h)
    constructor
    · refine le_trans ?_ hle
      split
      · exact le_of_lt (by assumption)
      · exact le_refl _
    · intro x hx
      rcases List.mem_cons.1 hx with rfl | hx
      · refine le_trans ?_ hle
        split
        · exact le_refl _
        · exact not_lt.1 (by assumption)
      · exact hub x hx

theorem pyMax_spec {l : List ℚ} {v : ℚ} (h : pyMax l = some v) :
    v ∈ l ∧ ∀ x ∈ l, x ≤ v := by
  match l, h with
  | x :: xs, h =>
    have hv : xs.foldl (fun acc b => if acc < b then b else acc) x = v := by
      simpa [pyMax] using h
    rcases pyMax_foldl_spec xs x with ⟨hmem, hle, hub⟩
    rw [hv] at hmem hle hub
    refine ⟨?_, ?_⟩
    · rcases hmem with rfl | hm
      · exact List.mem_cons_self _ _
      · exact List.mem_cons_of_mem _ hm
    · intro y hy
      rcases List.mem_cons.1 hy with rfl | hy
      · exact hle
      · exact hub y hy

theorem pyMax_isSome {l : List ℚ} (h : l ≠ []) : ∃ v, pyMax l = some v := by
  match l with
  | x :: xs => exact ⟨_, rfl⟩

/-- Descending-order instances for the sort used by `get_distance`. -/
instance : IsTotal ℚ (fun a b => b ≤ a) := ⟨fun a b => le_total b a⟩

instance : IsTrans ℚ (fun a b => b ≤ a) := ⟨fun _ _ _ h1 h2 => le_trans h2 h1⟩

theorem sortedValuesDesc_perm (m : SpeakerMap) :
    List.Perm (sortedValuesDesc m) (valuesOf m) :=
  (valuesOf m).perm_insertionSort (fun a b => b ≤ a)

theorem sortedValuesDesc_sorted (m : SpeakerMap) :
    (sortedValuesDesc m).Sorted (fun a b => b ≤ a) :=
  List.sorted_insertionSort _ (valuesOf m)

theorem sortedValuesDesc_length (m : SpeakerMap) :
    (sortedValuesDesc m).length = m.length := by
  rw [(sortedValuesDesc_perm m).length_eq]
  exact List.length_map _ _

/-! ### Claim theorems: the identity resolver (`get_best_speaker` / `get_distance`) -/

/-- Claim C1: for a cluster with at least two recorded scores, `get_distance`
returns `|secondValue| - |bestValue|` where `bestValue` is the highest and
`secondValue` the second-highest score, and whenever that distance is below
0.1 the resolver returns the sentinel `unknown`, regardless of which speaker
holds the maximum. -/
theorem C1_close_scores_resolve_unknown (c : Cluster) (h2 : 2 ≤ c.speakers.length) :
    ∃ v0 v1 rest, sortedValuesDesc c.speakers = v0 :: v1 :: rest ∧
      v0 ∈ valuesOf c.speakers ∧ (∀ x ∈ valuesOf c.speakers, x ≤ v0) ∧
      v1 ∈ (valuesOf c.speakers).erase v0 ∧ (∀ x ∈ (valuesOf c.speakers).erase v0, x ≤ v1) ∧
      c.get_distance = .ok (|v1| - |v0|) ∧
      (|v1| - |v0| < mkRat 1 10 → c.get_best_speaker = .ok "unknown") := by
  have hlen : 2 ≤ (sortedValuesDesc c.speakers).length := by
    rw [sortedValuesDesc_length]; exact h2
  obtain ⟨v0, v1, rest, hs⟩ :
      ∃ v0 v1 rest, sortedValuesDesc c.speakers = v0 :: v1 :: rest := by
    cases hsv : sortedValuesDesc c.speakers with
    | nil => rw [hsv] at hlen; simp at hlen
    | cons v0 l =>
      cases l with
      | nil => rw [hsv] at hlen; simp at hlen
      | cons v1 rest => exact ⟨v0, v1, rest, rfl⟩
  have hperm : List.Perm (v0 :: v1 :: rest) (valuesOf c.speakers) := by
    rw [← hs]; exact sortedValuesDesc_perm c.speakers
  have hsort := sortedValuesDesc_sorted c.speakers
  rw [hs, List.sorted_cons] at hsort
  obtain ⟨h0, hsort1⟩ := hsort
  rw [List.sorted_cons] at hsort1
  obtain ⟨h1, _⟩ := hsort1
  have hv0mem : v0 ∈ valuesOf c.speakers := hperm.subset (List.mem_cons_self _ _)
  have hub0 : ∀ x ∈ valuesOf c.speakers, x ≤ v0 := by
    intro x hx
    rcases List.mem_cons.1 (hperm.symm.subset hx) with rfl | hx'
    · exact le_refl x
    · exact h0 x hx'
  have herase : List.Perm ((valuesOf c.speakers).erase v0) (v1 :: rest) := by
    have := (hperm.symm.erase v0)
    rwa [List.erase_cons_head] at this
  have hv1mem : v1 ∈ (valuesOf c.speakers).erase v0 :=
    herase.symm.subset (List.mem_cons_self _ _)
  have hub1 : ∀ x ∈ (valuesOf c.speakers).erase v0, x ≤ v1 := by
    intro x hx
    rcases List.mem_cons.1 (herase.subset hx) with rfl | hx'
    · exact le_refl x
    · exact h1 x hx'
  have hdist : c.get_distance = .ok (pyAbs v1 - pyAbs v0) := by
    simp only [Cluster.get_distance, hs]
  refine ⟨v0, v1, rest, hs, hv0mem, hub0, hv1mem, hub1, ?_, ?_⟩
  · rw [hdist, pyAbs_eq_abs, pyAbs_eq_abs]
  · intro hlt
    have hne : valuesOf c.speakers ≠ [] := by
      intro hnil
      rw [hnil] at hv0mem
      exact (List.not_mem_nil v0) hv0mem
    obtain ⟨v, hv⟩ := pyMax_isSome hne
    have hlt' : pyAbs v1 - pyAbs v0 < mkRat 1 10 := by
      rw [pyAbs_eq_abs, pyAbs_eq_abs]; exact hlt
    simp only [Cluster.get_best_speaker, hv, hdist, if_pos hlt']

/-- Witness for C1 at the spec's example `scoreBySpeaker = alice ↦ -20.0,
bob ↦ -20.05`: the hypothesis holds and the resolver returns `unknown`
(distance `0.05 < 0.1`) even though alice holds the best score. -/
theorem C1_close_scores_resolve_unknown_witness :
    2 ≤ ({ speakers := [("alice", -20), ("bob", mkRat (-2005) 100)] } : Cluster).speakers.length ∧
    (∃ v0 v1 rest,
      sortedValuesDesc
          ({ speakers := [("alice", -20), ("bob", mkRat (-2005) 100)] } : Cluster).speakers
        = v0 :: v1 :: rest ∧
      v0 ∈ valuesOf [("alice", -20), ("bob", mkRat (-2005) 100)] ∧
      (∀ x ∈ valuesOf [("alice", -20), ("bob", mkRat (-2005) 100)], x ≤ v0) ∧
      v1 ∈ (valuesOf [("alice", -20), ("bob", mkRat (-2005) 100)]).erase v0 ∧
      (∀ x ∈ (valuesOf [("alice", -20), ("bob", mkRat (-2005) 100)]).erase v0, x ≤ v1) ∧
      ({ speakers := [("alice", -20), ("bob", mkRat (-2005) 100)] } : Cluster).get_distance
        = .ok (|v1| - |v0|) ∧
      (|v1| - |v0| < mkRat 1 10 →
        ({ speakers := [("alice", -20), ("bob", mkRat (-2005) 100)] } : Cluster).get_best_speaker
          = .ok "unknown")) ∧
    ({ speakers := [("alice", -20), ("bob", mkRat (-2005) 100)] } : Cluster).get_best_speaker
      = .ok "unknown" :=
  ⟨by decide,
   C1_close_scores_resolve_unknown _ (by decide),
   by with_unfolding_all decide⟩

/-- Claim C2 counterexample: on an empty score map `get_best_speaker` raises
`ValueError` (Python `max()` on an empty sequence) instead of yielding the
sentinel `unknown` without error. -/
theorem C2_empty_map_counterexample :
    ({ speakers := [] } : Cluster).get_best_speaker
        = .error "ValueError: max() arg is an empty sequence" ∧
    ({ speakers := [] } : Cluster).get_best_speaker ≠ .ok "unknown" := by
  exact ⟨rfl, by decide⟩

/-- Claim C2 amended: for every cluster whose score map is empty,
`get_best_speaker` raises `ValueError` (from `max()` on an empty sequence);
it does not return `unknown`. -/
theorem C2_empty_map_raises (c : Cluster) (h : c.speakers = []) :
    c.get_best_speaker = .error "ValueError: max() arg is an empty sequence" := by
  obtain ⟨n, g, f, e, spk, segs, hdr⟩ := c
  simp only at h
  subst h
  rfl

/-- Witness for the amended C2 at the concrete empty score map. -/
theorem C2_empty_map_raises_witness :
    ({ speakers := [] } : Cluster).speakers = [] ∧
    ({ speakers := [] } : Cluster).get_best_speaker
      = .error "ValueError: max() arg is an empty sequence" :=
  ⟨rfl, C2_empty_map_raises _ rfl⟩

/-- Claim C3 counterexample: `scoreBySpeaker = alice ↦ -40.0, bob ↦ -50.0`
has distance `10 ≥ 0.1` and alice holds the maximum score, yet the resolver
returns `unknown`: the hardcoded `-33.0` floor does gate the outcome. -/
theorem C3_floor_gates_counterexample :
    ({ speakers := [("alice", -40), ("bob", -50)] } : Cluster).get_distance = .ok 10 ∧
    mkRat 1 10 ≤ (10 : ℚ) ∧
    List.lookup "alice" ([("alice", -40), ("bob", -50)] : SpeakerMap) = some (-40) ∧
    (∀ x ∈ valuesOf [("alice", -40), ("bob", -50)], x ≤ -40) ∧
    ({ speakers := [("alice", -40), ("bob", -50)] } : Cluster).get_best_speaker
      = .ok "unknown" := by
  refine ⟨by with_unfolding_all decide, by decide, by decide, by decide, ?_⟩
  with_unfolding_all decide

/-- Claim C3 amended: with at least two scores and distance `≥ 0.1`, the
resolver returns the (first) speaker holding the maximum score provided
that maximum exceeds the `-33.0` floor; when every score is `≤ -33.0` the
floor gates the outcome and the resolver returns `unknown` even though the
distance is large. -/
theorem C3_best_speaker_above_floor (c : Cluster) (v d : ℚ)
    (hmax : pyMax (valuesOf c.speakers) = some v)
    (hd : c.get_distance = .ok d)
    (hge : mkRat 1 10 ≤ d) :
    (-33 < v → ∃ p, p ∈ c.speakers ∧ p.2 = v ∧ (∀ x ∈ valuesOf c.speakers, x ≤ v) ∧
      c.get_best_speaker = .ok p.1) ∧
    (v ≤ -33 → c.get_best_speaker = .ok "unknown") := by
  obtain ⟨hvmem, hub⟩ := pyMax_spec hmax
  have hnlt : ¬ (d < mkRat 1 10) := not_lt.2 hge
  constructor
  · intro hfloor
    obtain ⟨p, hpmem, hpv⟩ := List.mem_map.1 hvmem
    have hsome : (c.speakers.find? (fun p => decide (p.2 = v))).isSome := by
      rw [List.find?_isSome]
      exact ⟨p, hpmem, by simp [hpv]⟩
    obtain ⟨q, hq⟩ := Option.isSome_iff_exists.1 hsome
    have hqtrue := List.find?_some hq
    have hqv : q.2 = v := by simpa using hqtrue
    have hqmem : q ∈ c.speakers := List.mem_of_find?_eq_some hq
    refine ⟨q, hqmem, hqv, hub, ?_⟩
    simp only [Cluster.get_best_speaker, hmax, hd, hq, if_pos hfloor, if_neg hnlt]
  · intro hfloor
    have hnfloor : ¬ (v > -33) := not_lt.2 hfloor
    simp only [Cluster.get_best_speaker, hmax, hd, if_neg hnfloor, if_neg hnlt]

/-- Witness for the amended C3: on `alice ↦ -20.0, bob ↦ -25.0` (max above
the floor) the resolver returns alice; on `alice ↦ -40.0, bob ↦ -50.0`
(all scores under the floor) it returns `unknown`. -/
theorem C3_best_speaker_above_floor_witness :
    pyMax (valuesOf [("alice", -40), ("bob", -50)]) = some (-40) ∧
    ({ speakers := [("alice", -40), ("bob", -50)] } : Cluster).get_distance = .ok 10 ∧
    mkRat 1 10 ≤ (10 : ℚ) ∧
    (((-40 : ℚ) ≤ -33 →
      ({ speakers := [("alice", -40), ("bob", -50)] } : Cluster).get_best_speaker
        = .ok "unknown")) ∧
    ({ speakers := [("alice", -20), ("bob", -25)] } : Cluster).get_best_speaker
      = .ok "alice" :=
  ⟨by decide, by with_unfolding_all decide, by decide,
   (C3_best_speaker_above_floor _ (-40) 10 (by decide)
      (by with_unfolding_all decide) (by decide)).2,
   by with_unfolding_all decide⟩

/-- Claim C8 counterexample: a cluster with exactly one recorded score does
not resolve to that speaker: `get_distance` raises `IndexError` (it reads
`values[1]`) and `get_best_speaker` propagates the exception. -/
theorem C8_single_entry_counterexample :
    ({ speakers := [("alice", -20)] } : Cluster).get_best_speaker
        = .error "IndexError: list index out of range" ∧
    ({ speakers := [("alice", -20)] } : Cluster).get_best_speaker ≠ .ok "alice" := by
  exact ⟨rfl, by decide⟩

/-- Claim C8 amended: for every cluster whose score map has exactly one
entry, `get_distance` raises `IndexError` and `get_best_speaker` propagates
it; the cluster does not resolve to the single speaker. -/
theorem C8_single_entry_raises (c : Cluster) (h1 : c.speakers.length = 1) :
    c.get_distance = .error "IndexError: list index out of range" ∧
    c.get_best_speaker = .error "IndexError: list index out of range" := by
  obtain ⟨n, g, f, e, spk, segs, hdr⟩ := c
  simp only at h1
  cases spk with
  | nil => simp at h1
  | cons p rest =>
    cases rest with
    | nil => exact ⟨rfl, rfl⟩
    | cons q t => simp at h1

/-- Witness for the amended C8 at the concrete single-entry map. -/
theorem C8_single_entry_raises_witness :
    ({ speakers := [("alice", -20)] } : Cluster).speakers.length = 1 ∧
    (({ speakers := [("alice", -20)] } : Cluster).get_distance
        = .error "IndexError: list index out of range" ∧
     ({ speakers := [("alice", -20)] } : Cluster).get_best_speaker
        = .error "IndexError: list index out of range") :=
  ⟨rfl, C8_single_entry_raises _ rfl⟩

/-! ### Claim theorems: `add_speaker` score recording (C4) -/

theorem ite_lt_eq_max (w v : ℚ) : (if w < v then v else w) = max w v := by
  rcases le_or_lt v w with h | h
  · rw [if_neg (not_lt.2 h), max_eq_left h]
  · rw [if_pos h, max_eq_right (le_of_lt h)]

theorem addSpeakerMap_lookup_present {m : SpeakerMap} {n : String} {w : ℚ} (v : ℚ)
    (h : List.lookup n m = some w) :
    List.lookup n (addSpeakerMap m n v) = some (max w v) := by
  induction m with
  | nil => simp [List.lookup] at h
  | cons p rest ih =>
    obtain ⟨k, x⟩ := p
    by_cases hk : k = n
    · subst hk
      rw [addSpeakerMap, if_pos rfl]
      rw [List.lookup] at h
      rw [List.lookup]
      simp only [beq_self_eq_true] at h ⊢
      cases h
      rw [ite_lt_eq_max]
    · have hbeq : (n == k) = false := beq_eq_false_iff_ne.2 (fun he => hk he.symm)
      rw [addSpeakerMap, if_neg hk]
      rw [List.lookup] at h
      rw [List.lookup]
      rw [hbeq] at h ⊢
      exact ih h

theorem addSpeakerMap_lookup_absent {m : SpeakerMap} {n : String} (v : ℚ)
    (h : List.lookup n m = none) :
    List.lookup n (addSpeakerMap m n v) = some v := by
  induction m with
  | nil => simp [addSpeakerMap, List.lookup]
  | cons p rest ih =>
    obtain ⟨k, x⟩ := p
    by_cases hk : k = n
    · subst hk
      rw [List.lookup] at h
      simp only [beq_self_eq_true] at h
      cases h
    · have hbeq : (n == k) = false := beq_eq_false_iff_ne.2 (fun he => hk he.symm)
      rw [addSpeakerMap, if_neg hk]
      rw [List.lookup] at h
      rw [List.lookup]
      rw [hbeq] at h ⊢
      exact ih h

theorem addSpeakerMap_lookup_other {m : SpeakerMap} {n s : String} (v : ℚ)
    (h : s ≠ n) :
    List.lookup s (addSpeakerMap m n v) = List.lookup s m := by
  induction m with
  | nil =>
    have hbeq : (s == n) = false := beq_eq_false_iff_ne.2 h
    simp [addSpeakerMap, List.lookup, hbeq]
  | cons p rest ih =>
    obtain ⟨k, x⟩ := p
    by_cases hk : k = n
    · subst hk
      have hbeq : (s == k) = false := beq_eq_false_iff_ne.2 h
      rw [addSpeakerMap, if_pos rfl]
      rw [List.lookup, List.lookup, hbeq]
    · rw [addSpeakerMap, if_neg hk]
      rw [List.lookup, List.lookup]
      cases hsk : (s == k) with
      | true => rfl
      | false => exact ih

theorem addSpeakerMap_monotone {m : SpeakerMap} {s : String} {w : ℚ} (n : String) (v : ℚ)
    (h : List.lookup s m = some w) :
    ∃ w', List.lookup s (addSpeakerMap m n v) = some w' ∧ w ≤ w' ∧
      (w' ≠ w → w < w' ∧ w' = v) := by
  by_cases hs : s = n
  · subst hs
    refine ⟨max w v, addSpeakerMap_lookup_present v h, le_max_left _ _, ?_⟩
    intro hne
    rcases max_choice w v with hm | hm
    · exact absurd hm hne
    · refine ⟨?_, hm⟩
      rw [hm]
      rcases lt_or_le w v with hlt | hle
      · exact hlt
      · exact absurd (max_eq_left hle) hne
  · exact ⟨w, (addSpeakerMap_lookup_other v hs).trans h, le_refl w, fun hne => absurd rfl hne⟩

/-- Claim C4: `add_speaker` records `max(existing, new)` for the named
speaker, leaves other speakers untouched, and across any sequence of
`add_speaker` calls the recorded score for a speaker never decreases;
it is replaced only by a strictly greater value. -/
theorem C4_add_speaker_monotone_max (c : Cluster) (nm s : String) (v : ℚ) :
    ((∀ w, List.lookup nm c.speakers = some w →
        List.lookup nm (c.add_speaker nm v).speakers = some (max w v)) ∧
     (List.lookup nm c.speakers = none →
        List.lookup nm (c.add_speaker nm v).speakers = some v) ∧
     (s ≠ nm → List.lookup s (c.add_speaker nm v).speakers = List.lookup s c.speakers)) ∧
    (∀ w, List.lookup s c.speakers = some w →
       ∃ w', List.lookup s (c.add_speaker nm v).speakers = some w' ∧ w ≤ w' ∧
         (w' ≠ w → w < w' ∧ w' = v)) ∧
    (∀ (calls : List (String × ℚ)) (w : ℚ), List.lookup s c.speakers = some w →
       ∃ w', List.lookup s
           ((calls.foldl (fun cl pr => cl.add_speaker pr.1 pr.2) c).speakers) = some w' ∧
         w ≤ w') := by
  refine ⟨⟨fun w h => addSpeakerMap_lookup_present v h,
          fun h => addSpeakerMap_lookup_absent v h,
          fun h => addSpeakerMap_lookup_other v h⟩,
         fun w h => addSpeakerMap_monotone nm v h, ?_⟩
  intro calls
  induction calls generalizing c with
  | nil => exact fun w h => ⟨w, h, le_refl w⟩
  | cons pr t ih =>
    intro w h
    obtain ⟨w1, hw1, hle1, _⟩ := addSpeakerMap_monotone pr.1 pr.2 h
    obtain ⟨w2, hw2, hle2⟩ := ih (c.add_speaker pr.1 pr.2) w1 hw1
    exact ⟨w2, hw2, le_trans hle1 hle2⟩

/-- Witness for C4 at a concrete cluster: recording a lower score for bob
keeps the old value; recording a higher one replaces it. -/
theorem C4_add_speaker_monotone_max_witness :
    (List.lookup "bob" ({ speakers := [("bob", -20)] } : Cluster).speakers = some (-20) →
      List.lookup "bob"
          (({ speakers := [("bob", -20)] } : Cluster).add_speaker "bob" (-25)).speakers
        = some (max (-20) (-25))) ∧
    List.lookup "bob"
        (({ speakers := [("bob", -20)] } : Cluster).add_speaker "bob" (-25)).speakers
      = some (-20) ∧
    List.lookup "bob"
        (({ speakers := [("bob", -20)] } : Cluster).add_speaker "bob" (-15)).speakers
      = some (-15) :=
  ⟨fun h => (((C4_add_speaker_monotone_max { speakers := [("bob", -20)] } "bob" "bob"
      (-25)).1).1) (-20) h,
   by decide, by decide⟩

/-! ### Claim theorems: the bounded-concurrency scoring scheduler (C7)

The scoring dispatch loop of `extract_speakers` (lines 417-432):

    for cluster in clusters:
        for f in files:
            if  len(active_children()) < cpus :
                p[f+cluster] = Process(...); p[f+cluster].start()
            else:
                while len(active_children()) >= cpus:
                    time.sleep(1)
                p[f+cluster] = Process(...); p[f+cluster].start()
    for proc in p:
        if p[proc].is_alive():
            p[proc].join()

is modelled as a transition system: the single dispatching thread starts a
job only when the observed number of live children is below `cpus` (both
branches), and child processes finish asynchronously. -/

/-- State of the scoring phase: `active` is `len(active_children())`,
`pending` the number of (cluster, model) jobs not yet started, `done` the
number of finished jobs. -/
structure SchedState where
  active : Nat
  pending : Nat
  done : Nat
  deriving Repr, DecidableEq

/-- One step of the scoring phase: `start` models `Process.start()`, which
the dispatch loop reaches only when `len(active_children()) < cpus`
(directly in the `if` branch, and after the `while ... >= cpus` poll loop
exits in the `else` branch); `finish` models a child process exiting. -/
inductive SchedStep (cpus : Nat) : SchedState → SchedState → Prop
  | start : ∀ a p d, a < cpus → 0 < p → SchedStep cpus ⟨a, p, d⟩ ⟨a + 1, p - 1, d⟩
  | finish : ∀ a p d, 0 < a → SchedStep cpus ⟨a, p, d⟩ ⟨a - 1, p, d + 1⟩

/-- States reachable during the scoring phase, starting with no job started
and `jobs` = number of (cluster, candidate-model) pairs to score. -/
inductive SchedReachable (cpus jobs : Nat) : SchedState → Prop
  | init : SchedReachable cpus jobs ⟨0, jobs, 0⟩
  | step : ∀ s t, SchedReachable cpus jobs s → SchedStep cpus s t → SchedReachable cpus jobs t

/-- Claim C7: in every reachable state of the scoring phase the number of
in-flight jobs never exceeds `cpus` (a job is admitted only from a state
with `active < cpus`), jobs are conserved, and in any state where the join
barrier has completed (nothing pending, nothing alive) every job is done —
so identity resolution starts only after all scoring jobs finished. -/
theorem C7_bounded_concurrency (cpus jobs : Nat) (s : SchedState)
    (h : SchedReachable cpus jobs s) :
    s.active ≤ cpus ∧ s.active + s.pending + s.done = jobs ∧
      (s.pending = 0 → s.active = 0 → s.done = jobs) := by
  induction h with
  | init =>
    refine ⟨Nat.zero_le _, by simp, ?_⟩
    intro hp _
    simp only at hp
    simp [hp]
  | step s t _ hstep ih =>
    obtain ⟨hb, hc, _⟩ := ih
    cases hstep with
    | start a p d hlt hp =>
      simp only at hb hc ⊢
      exact ⟨by omega, by omega, by omega⟩
    | finish a p d ha =>
      simp only at hb hc ⊢
      exact ⟨by omega, by omega, by omega⟩

/-- Witness for C7: with 2 processing units and 3 jobs, the state after one
admission is reachable, respects the bound, and conserves jobs. -/
theorem C7_bounded_concurrency_witness :
    SchedReachable 2 3 ⟨1, 2, 0⟩ ∧
    ((1 : Nat) ≤ 2 ∧ 1 + 2 + 0 = 3 ∧ ((2 : Nat) = 0 → (1 : Nat) = 0 → (0 : Nat) = 3)) :=
  have hr : SchedReachable 2 3 ⟨1, 2, 0⟩ :=
    SchedReachable.step _ _ SchedReachable.init
      (SchedStep.start 0 3 0 (by decide) (by decide))
  ⟨hr, C7_bounded_concurrency 2 3 ⟨1, 2, 0⟩ hr⟩

/-! ### Text-file primitives

`voiceid.py` consumes and produces line-oriented text artifacts. Files are
modelled as their contents (`String`); the Python iteration/`readlines`
convention (lines keep their trailing newline) and `str.split`,
`str.replace`, `int(...)` are embedded below. -/

/-- Python `str.startswith`. -/
def pyStartswith (s pre : String) : Bool := pre.data.isPrefixOf s.data

/-- Python whitespace (the characters `str.split()` splits on). -/
def pyIsSpace (c : Char) : Bool :=
  c = ' ' || c = '\t' || c = '\n' || c = '\r' || c = '\x0b' || c = '\x0c'

/-- Helper for `readlines`: split after every newline, keeping the
terminator (the accumulator holds the current line reversed). -/
def readlinesAux : List Char → List Char → List (List Char)
  | acc, [] => if acc = [] then [] else [acc.reverse]
  | acc, c :: cs =>
    if c = '\n' then (acc.reverse ++ ['\n']) :: readlinesAux [] cs
    else readlinesAux (c :: acc) cs

/-- Python file iteration / `f.readlines()`: the lines of the file, each
keeping its trailing newline (the final line may lack one). -/
def readlines (s : String) : List String :=
  (readlinesAux [] s.data).map fun l => ⟨l⟩

/-- Helper for `pySplit` (split on whitespace runs, dropping empties). -/
def pySplitAux : List Char → List Char → List (List Char)
  | acc, [] => if acc = [] then [] else [acc.reverse]
  | acc, c :: cs =>
    if pyIsSpace c then
      if acc = [] then pySplitAux [] cs else acc.reverse :: pySplitAux [] cs
    else pySplitAux (c :: acc) cs

/-- Python `str.split()` with no argument: split on whitespace runs. -/
def pySplit (s : String) : List String :=
  (pySplitAux [] s.data).map fun l => ⟨l⟩

/-- Helper for `pySplitChar`. -/
def pySplitCharAux (sep : Char) : List Char → List Char → List (List Char)
  | acc, [] => [acc.reverse]
  | acc, c :: cs =>
    if c = sep then acc.reverse :: pySplitCharAux sep [] cs
    else pySplitCharAux sep (c :: acc) cs

/-- Python `str.split(sep)` for a one-character separator: split at every
occurrence, keeping empty fields. -/
def pySplitChar (sep : Char) (s : String) : List String :=
  (pySplitCharAux sep [] s.data).map fun l => ⟨l⟩

/-- Decimal-digit accumulation for `pyInt`. -/
def parseDigitsAux : List Char → Nat → Option Nat
  | [], acc => some acc
  | c :: cs, acc =>
    if c.isDigit then parseDigitsAux cs (acc * 10 + (c.toNat - '0'.toNat)) else none

/-- Python `int(s)`: optional surrounding whitespace, optional sign, then a
nonempty run of decimal digits; anything else raises `ValueError` (`none`). -/
def pyInt (s : String) : Option Int :=
  let t := s.data.dropWhile (fun c => pyIsSpace c)
  let t := (t.reverse.dropWhile (fun c => pyIsSpace c)).reverse
  match t with
  | [] => none
  | '-' :: ds =>
    match ds with
    | [] => none
    | _ => (parseDigitsAux ds 0).map (fun n => -(n : Int))
  | '+' :: ds =>
    match ds with
    | [] => none
    | _ => (parseDigitsAux ds 0).map (fun n => (n : Int))
  | ds => (parseDigitsAux ds 0).map (fun n => (n : Int))

/-- Python `str.replace` for an empty pattern: the replacement is inserted
before every character and once at the end. -/
def pyReplaceEmpty (r : List Char) : List Char → List Char
  | [] => r
  | c :: cs => r ++ c :: pyReplaceEmpty r cs

/-- Python `str.replace` for a nonempty pattern `ph :: pt`: scan left to
right, replacing each (non-overlapping, leftmost) occurrence by `r`. The
structural fuel (first argument) makes the recursion kernel-reducible; each
step consumes at least one character, so fuel `s.length` always suffices
(fuel exhaustion returns the remaining input unchanged). -/
def pyReplaceFuel (ph : Char) (pt r : List Char) : Nat → List Char → List Char
  | 0, s => s
  | _ + 1, [] => []
  | fuel + 1, c :: cs =>
    if (ph :: pt).isPrefixOf (c :: cs) then r ++ pyReplaceFuel ph pt r fuel (cs.drop pt.length)
    else c :: pyReplaceFuel ph pt r fuel cs

/-- Python `s.replace(pat, r)`. -/
def pyReplace (s pat r : String) : String :=
  match pat.data with
  | [] => ⟨pyReplaceEmpty r.data s.data⟩
  | ph :: pt => ⟨pyReplaceFuel ph pt r.data s.data.length s.data⟩

/-- Decimal rendering of a natural number with structural fuel (the fuel
`n + 1` always suffices since the value shrinks by a factor 10 each step);
models Python `str` on a non-negative integer. -/
def natDigitsFuel : Nat → Nat → List Char
  | 0, _ => []
  | fuel + 1, n =>
    if n < 10 then [Nat.digitChar n]
    else natDigitsFuel fuel (n / 10) ++ [Nat.digitChar (n % 10)]

/-- Python `str(n)` for a natural number. -/
def pyStrNat (n : Nat) : String := ⟨natDigitsFuel (n + 1) n⟩

/-- Python `str(i)` for an integer. -/
def pyStrInt : Int → String
  | .ofNat n => pyStrNat n
  | .negSucc m => "-" ++ pyStrNat (m + 1)

/-! ### `extract_clusters` (lines 301-317) -/

/-- Python dict assignment `clusters[k] = c` on an association list:
replace the first binding of `k`, or append a new one. -/
def dictSet : List (String × Cluster) → String → Cluster → List (String × Cluster)
  | [], k, c => [(k, c)]
  | (k', c') :: rest, k, c =>
    if k' = k then (k', c) :: rest else (k', c') :: dictSet rest k c

/-- `int(line[3])` of a parsed segment record. -/
def segDuration (seg : List String) : Option Int := (seg.get? 3).bind pyInt

/-- One iteration of the `extract_clusters` loop body over line `l`, with
state (cluster dict, key of `last_cluster`).

    if l.startswith(";;") :
        speaker_id = l.split()[1].split(':')[1]
        clusters[ speaker_id ] = Cluster(name=speaker_id, gender='U', frames=0)
        last_cluster = clusters[ speaker_id ]
        last_cluster.seg_header = l
    else:
        line = l.split()
        last_cluster.segments.append(line)
        last_cluster.frames += int(line[3])
        last_cluster.gender = line[4]
        last_cluster.e = line[5]

Since `last_cluster` aliases the dict entry of the most recent header's id,
the mutation is modelled as a functional update of that entry. -/
def extractClustersLine (st : List (String × Cluster) × Option String) (l : String) :
    Except String (List (String × Cluster) × Option String) :=
  if pyStartswith l ";;" then
    match (pySplit l).get? 1 with
    | none => .error "IndexError: list index out of range"
    | some tok =>
      match (pySplitChar ':' tok).get? 1 with
      | none => .error "IndexError: list index out of range"
      | some speaker_id =>
        let cl : Cluster :=
          { name := speaker_id, gender := "U", frames := 0, seg_header := some l }
        .ok (dictSet st.1 speaker_id cl, some speaker_id)
  else
    match st.2 with
    | none => .error "AttributeError: NoneType object has no attribute segments"
    | some k =>
      match List.lookup k st.1 with
      | none => .error "KeyError"
      | some cl =>
        match (pySplit l).get? 3 with
        | none => .error "IndexError: list index out of range"
        | some s3 =>
          match pyInt s3 with
          | none => .error "ValueError: invalid literal for int()"
          | some dur =>
            match (pySplit l).get? 4, (pySplit l).get? 5 with
            | some g, some e =>
              .ok (dictSet st.1 k
                { cl with segments := cl.segments ++ [pySplit l],
                          frames := cl.frames + dur, gender := g, e := some e },
                st.2)
            | _, _ => .error "IndexError: list index out of range"

/-- Folding `extractClustersLine` over all lines of the file. -/
def extractClustersLines :
    List String → List (String × Cluster) × Option String →
      Except String (List (String × Cluster) × Option String)
  | [], st => .ok st
  | l :: ls, st =>
    match extractClustersLine st l with
    | .error e => .error e
    | .ok st' => extractClustersLines ls st'

/-- `extract_clusters(filename, clusters)`: read the segmentation artifact
`content` and fill the cluster dictionary (passed in empty by
`extract_speakers`). -/
def extract_clusters (content : String) (clusters : List (String × Cluster)) :
    Except String (List (String × Cluster)) :=
  match extractClustersLines (readlines content) (clusters, none) with
  | .error e => .error e
  | .ok st => .ok st.1

/-! ### `ident_seg` (lines 242-260) -/

/-- The inner token loop collecting cluster ids:

    for k in line.split():
        if k.startswith('cluster:'):
            prefix,c = k.split(':')
            clusters.append(c)

The two-element unpack raises `ValueError` if the split does not have
exactly two parts. -/
def identSegLineClusters : List String → List String → Except String (List String)
  | [], acc => .ok acc
  | k :: ks, acc =>
    if pyStartswith k "cluster:" then
      match pySplitChar ':' k with
      | [_, c] => identSegLineClusters ks (acc ++ [c])
      | _ => .error "ValueError: unpack"
    else identSegLineClusters ks acc

/-- Cluster-id collection over all lines of the file. -/
def identSegCollect : List String → List String → Except String (List String)
  | [], acc => .ok acc
  | l :: ls, acc =>
    match identSegLineClusters (pySplit l) acc with
    | .error e => .error e
    | .ok acc' => identSegCollect ls acc'

/-- `ident_seg(showname, name)`: substitute every collected cluster id by
`name` in every line and write each line back with `line + '\n'` appended
(note: lines read by `readlines` already carry their newline).

    clusters.reverse()
    for line in lines:
        for c in clusters:
            line = line.replace(c,name)
        output.write(line+'\n')
-/
def ident_seg (content name : String) : Except String String :=
  let lines := readlines content
  match identSegCollect lines [] with
  | .error e => .error e
  | .ok cs =>
    .ok (String.join (lines.map (fun line =>
      (cs.reverse.foldl (fun l c => pyReplace l c name) line) ++ "\n")))

/-! ### `Cluster.generate_seg_file` (lines 74-82) -/

/-- The per-segment loop of `generate_seg_file`:

    start_time = 0
    for line in self.segments:
        line[2]=start_time
        start_time+=int(line[3])
        f.write("%s %s %s %s %s %s %s %s\n" % tuple(line) )

Returns the updated in-memory segment records and the written lines.
`line[2]=...` raises `IndexError` on records shorter than 3 fields; the
8-tuple format raises `TypeError` unless the record has exactly 8 fields. -/
def generateSegLines :
    List (List String) → Int → Except String (List (List String) × List String)
  | [], _ => .ok ([], [])
  | seg :: rest, start_time =>
    match seg.get? 2 with
    | none => .error "IndexError: list assignment index out of range"
    | some _ =>
      match (seg.set 2 (pyStrInt start_time)).get? 3 with
      | none => .error "IndexError: list index out of range"
      | some s3 =>
        match pyInt s3 with
        | none => .error "ValueError: invalid literal for int()"
        | some d =>
          if (seg.set 2 (pyStrInt start_time)).length = 8 then
            match generateSegLines rest (start_time + d) with
            | .error e => .error e
            | .ok (segs, outs) =>
              .ok ((seg.set 2 (pyStrInt start_time)) :: segs,
                (String.intercalate " " (seg.set 2 (pyStrInt start_time)) ++ "\n") :: outs)
          else .error "TypeError: format argument count mismatch"

/-- `Cluster.generate_seg_file(filename)`: write the cluster's segment
header followed by the renumbered segment lines; returns the file contents
and the destructively updated cluster. `f.write(None)` (unset header)
raises `TypeError`. -/
def Cluster.generate_seg_file (c : Cluster) : Except String (String × Cluster) :=
  match c.seg_header with
  | none => .error "TypeError: expected a character buffer object"
  | some hdr =>
    match generateSegLines c.segments 0 with
    | .error e => .error e
    | .ok (segs, outs) => .ok (hdr ++ String.join outs, { c with segments := segs })

/-! ### Claim theorems: the `ident_seg` / `extract_clusters` round trip (C5) -/

/-- Claim C5 counterexample: on the well-formed two-line artifact
`;; cluster:S0\nf 1 0 100 M S U S0\n` (which parses to cluster `S0` with one
segment of duration 100), relabeling `S0` to the confirmed name `alice` and
re-parsing does not yield a cluster with an unchanged segment set: the
re-parse raises `IndexError`. -/
theorem C5_roundtrip_counterexample :
    extract_clusters ";; cluster:S0\nf 1 0 100 M S U S0\n" []
      = .ok [("S0",
          ({ name := "S0", gender := "M", frames := 100, e := some "S",
             speakers := [], segments := [["f", "1", "0", "100", "M", "S", "U", "S0"]],
             seg_header := some ";; cluster:S0\n" } : Cluster))] ∧
    ident_seg ";; cluster:S0\nf 1 0 100 M S U S0\n" "alice"
      = .ok ";; cluster:alice\n\nf 1 0 100 M S U alice\n\n" ∧
    extract_clusters ";; cluster:alice\n\nf 1 0 100 M S U alice\n\n" []
      = .error "IndexError: list index out of range" :=
  ⟨by decide, by decide, by decide⟩

/-- Claim C5 amended: the relabel/re-parse round trip does not preserve the
segment set, because `ident_seg` writes `line + '\n'` for lines that already
end in `'\n'`: the relabeled artifact acquires a blank line after every
original line, and `extract_clusters` fails on the first blank line (its
whitespace split is empty, so `line[3]` raises `IndexError`) instead of
returning a cluster. Demonstrated on the two-line artifact of the
counterexample. -/
theorem C5_roundtrip_doubles_newlines :
    readlines ";; cluster:S0\nf 1 0 100 M S U S0\n"
      = [";; cluster:S0\n", "f 1 0 100 M S U S0\n"] ∧
    ident_seg ";; cluster:S0\nf 1 0 100 M S U S0\n" "alice"
      = .ok ";; cluster:alice\n\nf 1 0 100 M S U alice\n\n" ∧
    readlines ";; cluster:alice\n\nf 1 0 100 M S U alice\n\n"
      = [";; cluster:alice\n", "\n", "f 1 0 100 M S U alice\n", "\n"] ∧
    pySplit "\n" = [] ∧
    extractClustersLine
        ([(";", ({ name := ";" } : Cluster))].map (fun p => (p.1, p.2)), some ";") "\n"
      = .error "IndexError: list index out of range" ∧
    extract_clusters ";; cluster:alice\n\nf 1 0 100 M S U alice\n\n" []
      = .error "IndexError: list index out of range" :=
  ⟨by decide, by decide, by decide, by decide, by decide, by decide⟩

/-! ### Claim theorems: the `frameCount` invariant of `extract_clusters` (C9) -/

/-- The durations `int(line[3])` of a list of segment records (`none` as
soon as one record lacks a parsable duration field). -/
def segDurations : List (List String) → Option (List Int)
  | [] => some []
  | s :: rest =>
    match segDuration s, segDurations rest with
    | some d, some ds => some (d :: ds)
    | _, _ => none

/-- The C9 invariant for one cluster: its `frames` equals the sum of the
parsed `line[3]` durations of its segments. -/
def framesOk (cl : Cluster) : Prop :=
  ∃ ds : List Int, segDurations cl.segments = some ds ∧ cl.frames = ds.sum

theorem mem_dictSet {m : List (String × Cluster)} {k : String} {c : Cluster}
    {x : String × Cluster} (h : x ∈ dictSet m k c) : x ∈ m ∨ x = (k, c) := by
  induction m with
  | nil =>
    rw [dictSet] at h
    exact Or.inr (List.mem_singleton.1 h)
  | cons p rest ih =>
    obtain ⟨k', c'⟩ := p
    by_cases hke : k' = k
    · rw [dictSet, if_pos hke] at h
      rcases List.mem_cons.1 h with rfl | hm
      · exact Or.inr (by rw [hke])
      · exact Or.inl (List.mem_cons_of_mem _ hm)
    · rw [dictSet, if_neg hke] at h
      rcases List.mem_cons.1 h with rfl | hm
      · exact Or.inl (List.mem_cons_self _ _)
      · rcases ih hm with hm' | hm'
        · exact Or.inl (List.mem_cons_of_mem _ hm')
        · exact Or.inr hm'

theorem mem_of_lookup_eq_some {m : List (String × Cluster)} {k : String} {c : Cluster}
    (h : List.lookup k m = some c) : (k, c) ∈ m := by
  induction m with
  | nil => simp [List.lookup] at h
  | cons p rest ih =>
    obtain ⟨k', c'⟩ := p
    rw [List.lookup] at h
    cases hkk : (k == k') with
    | true =>
      rw [hkk] at h
      cases h
      have : k = k' := by simpa using hkk
      subst this
      exact List.mem_cons_self _ _
    | false =>
      rw [hkk] at h
      exact List.mem_cons_of_mem _ (ih h)

theorem segDurations_append {segs : List (List String)} {ds : List Int}
    {line : List String} {d : Int}
    (hds : segDurations segs = some ds) (hd : segDuration line = some d) :
    segDurations (segs ++ [line]) = some (ds ++ [d]) := by
  induction segs generalizing ds with
  | nil =>
    rw [segDurations] at hds
    cases hds
    simp [segDurations, hd]
  | cons s rest ih =>
    rw [segDurations] at hds
    cases hs : segDuration s with
    | none => rw [hs] at hds; cases hds
    | some d0 =>
      rw [hs] at hds
      cases hrest : segDurations rest with
      | none => rw [hrest] at hds; cases hds
      | some ds0 =>
        rw [hrest] at hds
        cases hds
        rw [List.cons_append, segDurations, hs, ih hrest]
        rfl

/-- The per-state invariant: every cluster in the dictionary satisfies
`framesOk`. -/
def invFrames (st : List (String × Cluster) × Option String) : Prop :=
  ∀ k cl, (k, cl) ∈ st.1 → framesOk cl

theorem extractClustersLine_preserves_invFrames
    {st : List (String × Cluster) × Option String} {l : String}
    {st' : List (String × Cluster) × Option String}
    (hinv : invFrames st) (h : extractClustersLine st l = .ok st') : invFrames st' := by
  rw [extractClustersLine] at h
  split at h
  · -- header line
    split at h
    · cases h
    · split at h
      · cases h
      · cases h
        intro k cl hm
        rcases mem_dictSet hm with hm' | hm'
        · exact hinv k cl hm'
        · cases hm'
          exact ⟨[], rfl, by simp⟩
  · -- data line
    split at h
    · cases h
    · rename_i key hkey
      split at h
      · cases h
      · rename_i cl0 hlookup
        split at h
        · cases h
        · rename_i s3 h3
          split at h
          · cases h
          · rename_i dur h4
            split at h
            · rename_i g e' h5 h6
              cases h
              intro k cl hm
              rcases mem_dictSet hm with hm' | hm'
              · exact hinv k cl hm'
              · cases hm'
                obtain ⟨ds, hds, hsum⟩ := hinv key cl0 (mem_of_lookup_eq_some hlookup)
                refine ⟨ds ++ [dur], ?_, ?_⟩
                · refine segDurations_append hds ?_
                  unfold segDuration
                  rw [h3]
                  exact h4
                · simp [hsum, List.sum_append]
            · cases h

theorem extractClustersLines_preserves_invFrames :
    ∀ (ls : List String) (st st' : List (String × Cluster) × Option String),
      invFrames st → extractClustersLines ls st = .ok st' → invFrames st' := by
  intro ls
  induction ls with
  | nil =>
    intro st st' hinv h
    rw [extractClustersLines] at h
    cases h
    exact hinv
  | cons l rest ih =>
    intro st st' hinv h
    rw [extractClustersLines] at h
    cases hline : extractClustersLine st l with
    | error e => rw [hline] at h; cases h
    | ok st1 =>
      rw [hline] at h
      exact ih st1 st' (extractClustersLine_preserves_invFrames hinv hline) h

/-- Claim C9: for every cluster produced by parsing a well-formed
segmentation artifact (the dictionary starts empty, as in
`extract_speakers`), `frames` equals the sum of the integer duration fields
(`line[3]`) of its segments, whatever the number of segments. -/
theorem C9_frames_eq_sum_durations (content : String) (m : List (String × Cluster))
    (h : extract_clusters content [] = .ok m) :
    ∀ k cl, (k, cl) ∈ m → ∃ ds : List Int,
      segDurations cl.segments = some ds ∧ cl.frames = ds.sum := by
  rw [extract_clusters] at h
  cases hl : extractClustersLines (readlines content) ([], none) with
  | error e => rw [hl] at h; cases h
  | ok st =>
    rw [hl] at h
    cases h
    have hinv0 : invFrames (([] : List (String × Cluster)), (none : Option String)) := by
      intro k cl hm
      simp at hm
    exact extractClustersLines_preserves_invFrames (readlines content) _ st hinv0 hl

/-- Witness for C9 at a concrete two-segment artifact: the cluster's
`frames` is `150 = 100 + 50`. -/
theorem C9_frames_eq_sum_durations_witness :
    extract_clusters ";; cluster:S0\nf 1 0 100 M S U S0\nf 1 100 50 M S U S0\n" []
      = .ok [("S0",
          ({ name := "S0", gender := "M", frames := 150, e := some "S",
             speakers := [],
             segments := [["f", "1", "0", "100", "M", "S", "U", "S0"],
               ["f", "1", "100", "50", "M", "S", "U", "S0"]],
             seg_header := some ";; cluster:S0\n" } : Cluster))] ∧
    (∀ k cl,
      (k, cl) ∈ [("S0",
          ({ name := "S0", gender := "M", frames := 150, e := some "S",
             speakers := [],
             segments := [["f", "1", "0", "100", "M", "S", "U", "S0"],
               ["f", "1", "100", "50", "M", "S", "U", "S0"]],
             seg_header := some ";; cluster:S0\n" } : Cluster))] →
      ∃ ds : List Int, segDurations cl.segments = some ds ∧ cl.frames = ds.sum) :=
  ⟨by decide,
   C9_frames_eq_sum_durations ";; cluster:S0\nf 1 0 100 M S U S0\nf 1 100 50 M S U S0\n" _
     (by decide)⟩

/-! ### Claim theorems: `generate_seg_file` renumbering (C10) -/

theorem generateSegLines_spec :
    ∀ (segs : List (List String)) (start : Int) (ds : List Int),
      segDurations segs = some ds →
      (∀ s ∈ segs, s.length = 8) →
      ∃ segs' outs, generateSegLines segs start = .ok (segs', outs) ∧
        segs'.length = segs.length ∧
        (∀ i, segs'.get? i = (segs.get? i).map
          (fun seg => seg.set 2 (pyStrInt (start + (ds.take i).sum)))) ∧
        outs = segs'.map (fun s => String.intercalate " " s ++ "\n") ∧
        segDurations segs' = some ds := by
  intro segs
  induction segs with
  | nil =>
    intro start ds hds h8
    rw [segDurations] at hds
    cases hds
    exact ⟨[], [], rfl, rfl, by intro i; simp, rfl, rfl⟩
  | cons seg rest ih =>
    intro start ds hds h8
    rw [segDurations] at hds
    cases hseg : segDuration seg with
    | none => rw [hseg] at hds; cases hds
    | some d =>
      rw [hseg] at hds
      cases hrest : segDurations rest with
      | none => rw [hrest] at hds; cases hds
      | some ds' =>
        rw [hrest] at hds
        cases hds
        have h8seg : seg.length = 8 := h8 seg (List.mem_cons_self _ _)
        have h8rest : ∀ s ∈ rest, s.length = 8 := fun s hs => h8 s (List.mem_cons_of_mem _ hs)
        obtain ⟨x2, hx2⟩ : ∃ x, seg.get? 2 = some x := by
          cases hx : seg.get? 2 with
          | none =>
            have := List.get?_eq_none.1 hx
            omega
          | some x => exact ⟨x, rfl⟩
        obtain ⟨s3, h3, h4⟩ : ∃ s3, seg.get? 3 = some s3 ∧ pyInt s3 = some d := by
          unfold segDuration at hseg
          cases h3 : seg.get? 3 with
          | none => rw [h3] at hseg; cases hseg
          | some s3 =>
            rw [h3] at hseg
            exact ⟨s3, rfl, hseg⟩
        have hset3 : (seg.set 2 (pyStrInt start)).get? 3 = some s3 := by
          rw [List.get?_eq_getElem?] at h3 ⊢
          rw [List.getElem?_set_ne (by omega)]
          exact h3
        have hsetlen : (seg.set 2 (pyStrInt start)).length = 8 := by
          rw [List.length_set]
          exact h8seg
        have hsetdur : segDuration (seg.set 2 (pyStrInt start)) = some d := by
          unfold segDuration
          rw [hset3]
          exact h4
        obtain ⟨segs', outs, hrec, hlen, hidx, houts, hdur⟩ := ih (start + d) ds' hrest h8rest
        refine ⟨seg.set 2 (pyStrInt start) :: segs',
          (String.intercalate " " (seg.set 2 (pyStrInt start)) ++ "\n") :: outs,
          ?_, ?_, ?_, ?_, ?_⟩
        · simp only [generateSegLines, hx2, hset3, h4, hsetlen, hrec, if_true]
        · simp [hlen]
        · intro i
          cases i with
          | zero => simp
          | succ n =>
            have := hidx n
            simp only [List.get?] at this ⊢
            rw [this]
            simp only [List.take_succ_cons, List.sum_cons, add_assoc]
        · simp [houts]
        · rw [segDurations, hsetdur, hdur]

/-- Claim C10: writing a cluster's per-cluster segmentation file renumbers
segment starts: it destructively sets the i-th in-memory record's field 2
to the sum of the durations of the preceding records (the first segment
starts at 0), preserving segment count, order and every other field —
in particular the durations — and writes header plus the space-joined
records. -/
theorem C10_generate_seg_file_renumbers (c : Cluster) (hdr : String) (ds : List Int)
    (hh : c.seg_header = some hdr)
    (hds : segDurations c.segments = some ds)
    (h8 : ∀ s ∈ c.segments, s.length = 8) :
    ∃ out c', c.generate_seg_file = .ok (out, c') ∧
      c'.segments.length = c.segments.length ∧
      (∀ i, c'.segments.get? i = (c.segments.get? i).map
        (fun seg => seg.set 2 (pyStrInt ((ds.take i).sum)))) ∧
      segDurations c'.segments = some ds ∧
      out = hdr ++ String.join (c'.segments.map (fun s => String.intercalate " " s ++ "\n")) ∧
      c'.seg_header = c.seg_header ∧ c'.frames = c.frames := by
  obtain ⟨segs', outs, hrec, hlen, hidx, houts, hdur⟩ :=
    generateSegLines_spec c.segments 0 ds hds h8
  refine ⟨hdr ++ String.join outs, { c with segments := segs' }, ?_, hlen, ?_, hdur, ?_, rfl, rfl⟩
  · rw [Cluster.generate_seg_file, hh, hrec]
  · intro i
    have := hidx i
    simpa using this
  · rw [houts]

/-- The concrete two-segment cluster used by the C10 witness. -/
def c10cluster : Cluster :=
  { seg_header := some ";; h\n",
    segments := [["f", "1", "7", "100", "M", "S", "U", "S0"],
      ["f", "1", "9", "50", "M", "S", "U", "S0"]] }

/-- Witness for C10 at a concrete two-segment cluster: the original start
offsets 7 and 9 are discarded; the written starts are 0 and 100. -/
theorem C10_generate_seg_file_renumbers_witness :
    c10cluster.seg_header = some ";; h\n" ∧
    segDurations c10cluster.segments = some [100, 50] ∧
    (∃ out c', c10cluster.generate_seg_file = .ok (out, c') ∧
      c'.segments.length = 2 ∧
      (∀ i, c'.segments.get? i = (c10cluster.segments.get? i).map
        (fun seg => seg.set 2 (pyStrInt ((([100, 50] : List Int).take i).sum)))) ∧
      segDurations c'.segments = some [100, 50]) ∧
    c10cluster.generate_seg_file
      = .ok (";; h\nf 1 0 100 M S U S0\nf 1 100 50 M S U S0\n",
          { c10cluster with
            segments := [["f", "1", "0", "100", "M", "S", "U", "S0"],
              ["f", "1", "100", "50", "M", "S", "U", "S0"]] }) := by
  refine ⟨rfl, by decide, ?_, by decide⟩
  obtain ⟨out, c', h1, h2, h3, h4, h5, h6, h7⟩ :=
    C10_generate_seg_file_renumbers c10cluster ";; h\n" [100, 50] rfl (by decide) (by decide)
  exact ⟨out, c', h1, by rw [h2]; rfl, h3, h4⟩

/-! ### Claim theorems: enrollment naming (C6)

The collision-avoidance loop of `extract_speakers` (lines 473-481):

    cont = 0
    gmm_name = speakers[c]+".gmm"
    if os.path.exists( os.path.join(folder_db_dir,gmm_name)):
        while True:
            cont = cont +1
            gmm_name = speakers[c]+""+str(cont)+".gmm"
            wav_name = speakers[c]+""+str(cont)+".wav"
            if not os.path.exists( os.path.join(folder_db_dir,gmm_name)) and not os.path.exists( wav_name ):
                break

then `Cluster.build_and_store_gmm` moves the trained `<gmm_name>` artifact
into the gender partition directory (`shutil.move(show+'.gmm', db_dir/gender)`).
The partition directory is modelled as the list `db` of file names it holds
and the working directory (where `wav_name` is probed) as `cwd`. -/

/-- Value of a decimal digit string (for proving `pyStrNat` injective). -/
def digitsVal (ds : List Char) : Nat :=
  ds.foldl (fun acc c => acc * 10 + (c.toNat - '0'.toNat)) 0

theorem digitsVal_append_singleton (l : List Char) (c : Char) :
    digitsVal (l ++ [c]) = digitsVal l * 10 + (c.toNat - '0'.toNat) := by
  unfold digitsVal
  rw [List.foldl_append]
  rfl

theorem digitChar_val {n : Nat} (h : n < 10) :
    (Nat.digitChar n).toNat - '0'.toNat = n := by
  interval_cases n <;> rfl

theorem digitsVal_natDigitsFuel :
    ∀ (fuel n : Nat), n < 10 ^ fuel → digitsVal (natDigitsFuel fuel n) = n := by
  intro fuel
  induction fuel with
  | zero =>
    intro n h
    interval_cases n
    rfl
  | succ f ih =>
    intro n h
    rw [natDigitsFuel]
    by_cases h10 : n < 10
    · rw [if_pos h10]
      have : digitsVal [Nat.digitChar n] = (Nat.digitChar n).toNat - '0'.toNat := by
        unfold digitsVal
        simp [List.foldl]
      rw [this, digitChar_val h10]
    · rw [if_neg h10]
      rw [digitsVal_append_singleton]
      have hdiv : n / 10 < 10 ^ f := by
        rw [Nat.div_lt_iff_lt_mul (by norm_num)]
        calc n < 10 ^ (f + 1) := h
        _ = 10 ^ f * 10 := by rw [pow_succ]
      rw [ih (n / 10) hdiv, digitChar_val (Nat.mod_lt n (by norm_num))]
      have := Nat.div_add_mod n 10
      omega

theorem digitsVal_pyStrNat (n : Nat) : digitsVal (pyStrNat n).data = n := by
  have hlt : n < 10 ^ (n + 1) := by
    calc n < 10 ^ n := Nat.lt_pow_self (by norm_num) n
    _ ≤ 10 ^ (n + 1) := Nat.pow_le_pow_right (by norm_num) (Nat.le_succ n)
  exact digitsVal_natDigitsFuel (n + 1) n hlt

theorem pyStrNat_data_inj {m n : Nat} (h : (pyStrNat m).data = (pyStrNat n).data) :
    m = n := by
  have hm := digitsVal_pyStrNat m
  have hn := digitsVal_pyStrNat n
  rw [h] at hm
  rw [hn] at hm
  exact hm.symm

theorem string_data_append (s t : String) : (s ++ t).data = s.data ++ t.data := by
  cases s
  cases t
  rfl

/-- Injectivity of the probed candidate names `speaker ++ str(c) ++ suffix`. -/
theorem candidate_inj (speaker suffix : String) {m n : Nat}
    (h : speaker ++ pyStrNat m ++ suffix = speaker ++ pyStrNat n ++ suffix) : m = n := by
  have hd : (speaker ++ pyStrNat m ++ suffix).data
      = (speaker ++ pyStrNat n ++ suffix).data := by rw [h]
  rw [string_data_append, string_data_append, string_data_append, string_data_append,
    List.append_assoc, List.append_assoc] at hd
  have h1 : (pyStrNat m).data ++ suffix.data = (pyStrNat n).data ++ suffix.data :=
    List.append_cancel_left hd
  exact pyStrNat_data_inj (List.append_cancel_right h1)

/-- The predicate of the `while True` probe: suffix `c` (with `cont ≥ 1`)
yields a gmm name free in the gender partition and a wav name free in the
working directory. -/
def probeP (db cwd : List String) (speaker : String) (c : Nat) : Prop :=
  1 ≤ c ∧ (speaker ++ pyStrNat c ++ ".gmm") ∉ db ∧ (speaker ++ pyStrNat c ++ ".wav") ∉ cwd

instance probeP_decidable (db cwd : List String) (speaker : String) :
    DecidablePred (probeP db cwd speaker) := by
  intro c
  unfold probeP
  infer_instance

/-- The probe always terminates: some suffix is free, because the candidate
names are pairwise distinct while the two probed directories are finite. -/
theorem exists_probeP (db cwd : List String) (speaker : String) :
    ∃ c, probeP db cwd speaker c := by
  by_contra hall
  push_neg at hall
  simp only [probeP, not_and_or, not_not] at hall
  classical
  set N := db.length + cwd.length with hN
  set s : Finset ℕ := Finset.Icc 1 (N + 1) with hs
  set t : Finset (String ⊕ String) :=
    db.toFinset.image Sum.inl ∪ cwd.toFinset.image Sum.inr with ht
  have hcard_s : s.card = N + 1 := by
    rw [hs, Nat.card_Icc]
    omega
  have hcard_t : t.card ≤ N := by
    calc t.card ≤ (db.toFinset.image Sum.inl).card + (cwd.toFinset.image Sum.inr).card :=
          Finset.card_union_le _ _
    _ ≤ db.toFinset.card + cwd.toFinset.card := by
          gcongr <;> exact Finset.card_image_le
    _ ≤ db.length + cwd.length := by
          gcongr <;> exact List.toFinset_card_le _
  have hf : ∀ c ∈ s,
      (if (speaker ++ pyStrNat c ++ ".gmm") ∈ db
        then Sum.inl (speaker ++ pyStrNat c ++ ".gmm")
        else Sum.inr (speaker ++ pyStrNat c ++ ".wav")) ∈ t := by
    intro c hc
    have hc1 : 1 ≤ c := (Finset.mem_Icc.1 hc).1
    rcases hall c with h' | h' | h'
    · omega
    · rw [if_pos h']
      exact Finset.mem_union_left _ (Finset.mem_image_of_mem _ (List.mem_toFinset.2 h'))
    · by_cases hg : (speaker ++ pyStrNat c ++ ".gmm") ∈ db
      · rw [if_pos hg]
        exact Finset.mem_union_left _ (Finset.mem_image_of_mem _ (List.mem_toFinset.2 hg))
      · rw [if_neg hg]
        exact Finset.mem_union_right _ (Finset.mem_image_of_mem _ (List.mem_toFinset.2 h'))
  have hlt : t.card < s.card := by omega
  obtain ⟨c1, hc1, c2, hc2, hne, heq⟩ :=
    Finset.exists_ne_map_eq_of_card_lt_of_maps_to hlt hf
  by_cases hg1 : (speaker ++ pyStrNat c1 ++ ".gmm") ∈ db <;>
    by_cases hg2 : (speaker ++ pyStrNat c2 ++ ".gmm") ∈ db
  · rw [if_pos hg1, if_pos hg2] at heq
    exact hne (candidate_inj speaker ".gmm" (Sum.inl.inj heq))
  · rw [if_pos hg1, if_neg hg2] at heq
    cases heq
  · rw [if_neg hg1, if_pos hg2] at heq
    cases heq
  · rw [if_neg hg1, if_neg hg2] at heq
    exact hne (candidate_inj speaker ".wav" (Sum.inr.inj heq))

/-- The suffix at which the probe loop of lines 476-481 stops: the least
`cont ≥ 1` whose gmm and wav candidate names are both free. -/
def probeCont (db cwd : List String) (speaker : String) : Nat :=
  Nat.find (exists_probeP db cwd speaker)

/-- The enrollment naming-and-store step (lines 473-484 plus the
`shutil.move` of `build_and_store_gmm`): pick `speaker.gmm`, or probe for a
free numeric suffix if that name is taken, then add the new artifact to the
gender partition. Returns the new directory contents and the chosen name. -/
def enroll (db cwd : List String) (speaker : String) : List String × String :=
  if speaker ++ ".gmm" ∈ db then
    (db ++ [speaker ++ pyStrNat (probeCont db cwd speaker) ++ ".gmm"],
      speaker ++ pyStrNat (probeCont db cwd speaker) ++ ".gmm")
  else
    (db ++ [speaker ++ ".gmm"], speaker ++ ".gmm")

/-- Claim C6: enrolling a speaker never overwrites an existing model. The
chosen artifact name is not already present in the gender partition, every
pre-existing artifact (in particular one already named `speaker.gmm`) is
still present afterwards, the new artifact is present, and on a collision
the name is `speaker ++ str(c) ++ ".gmm"` for the least free suffix
`c ≥ 1`. -/
theorem C6_enrollment_append_only (db cwd : List String) (speaker : String) :
    (enroll db cwd speaker).2 ∉ db ∧
    (∀ x ∈ db, x ∈ (enroll db cwd speaker).1) ∧
    (enroll db cwd speaker).2 ∈ (enroll db cwd speaker).1 ∧
    (speaker ++ ".gmm" ∈ db →
      ∃ c, probeP db cwd speaker c ∧
        (enroll db cwd speaker).2 = speaker ++ pyStrNat c ++ ".gmm" ∧
        ∀ c' < c, ¬ probeP db cwd speaker c') := by
  by_cases hcol : speaker ++ ".gmm" ∈ db
  · have hP : probeP db cwd speaker (probeCont db cwd speaker) :=
      Nat.find_spec (exists_probeP db cwd speaker)
    refine ⟨?_, ?_, ?_, ?_⟩
    · rw [enroll, if_pos hcol]
      exact hP.2.1
    · intro x hx
      rw [enroll, if_pos hcol]
      exact List.mem_append_left _ hx
    · rw [enroll, if_pos hcol]
      exact List.mem_append_right _ (List.mem_singleton.2 rfl)
    · intro _
      refine ⟨probeCont db cwd speaker, hP, ?_, ?_⟩
      · rw [enroll, if_pos hcol]
      · intro c' hc'
        exact Nat.find_min (exists_probeP db cwd speaker) hc'
  · refine ⟨?_, ?_, ?_, fun h => absurd h hcol⟩
    · rw [enroll, if_neg hcol]
      exact hcol
    · intro x hx
      rw [enroll, if_neg hcol]
      exact List.mem_append_left _ hx
    · rw [enroll, if_neg hcol]
      exact List.mem_append_right _ (List.mem_singleton.2 rfl)

/-- Witness for C6: enrolling `carol` into a partition already holding
`carol.gmm` keeps `carol.gmm` and stores the model under the distinct free
name `carol1.gmm`. -/
theorem C6_enrollment_append_only_witness :
    (enroll ["carol.gmm"] [] "carol").2 ∉ ["carol.gmm"] ∧
    (∀ x ∈ ["carol.gmm"], x ∈ (enroll ["carol.gmm"] [] "carol").1) ∧
    (enroll ["carol.gmm"] [] "carol").2 ∈ (enroll ["carol.gmm"] [] "carol").1 ∧
    ("carol" ++ ".gmm" ∈ ["carol.gmm"] →
      ∃ c, probeP ["carol.gmm"] [] "carol" c ∧
        (enroll ["carol.gmm"] [] "carol").2 = "carol" ++ pyStrNat c ++ ".gmm" ∧
        ∀ c' < c, ¬ probeP ["carol.gmm"] [] "carol" c') ∧
    (enroll ["carol.gmm"] [] "carol").2 = "carol1.gmm" := by
  obtain ⟨h1, h2, h3, h4⟩ := C6_enrollment_append_only ["carol.gmm"] [] "carol"
  refine ⟨h1, h2, h3, h4, ?_⟩
  have hpc : probeCont ["carol.gmm"] [] "carol" = 1 := by
    rw [probeCont, Nat.find_eq_iff]
    constructor
    · refine ⟨le_refl 1, ?_, ?_⟩ <;> decide
    · intro m hm
      interval_cases m
      intro hP
      exact absurd hP.1 (by decide)
  rw [enroll, if_pos (by decide), hpc]
  decide

end Voiceid
